import Mathlib

/-!
Verification of the content-addressable git object core implemented in
`src/main.cpp` (with the earlier revisions kept as unnamed parts).

All byte strings are modelled as `List Nat` of byte values (0..255).
The zlib codec and the OpenSSL SHA-1 routine are external libraries the
program links against: the codec is abstracted as an explicit
compress/decompress pair passed to every operation that uses it, while
SHA-1 is embedded by its algorithm (FIPS 180) since `computeSHA1` is a
thin hex-printing wrapper around `SHA1`.
-/

set_option maxRecDepth 10000

namespace MyGit

/-- Word width constant 2^32 used by SHA-1 arithmetic. -/
def w32 : Nat := 4294967296

/-- 64-bit wrap-around used by the C++ `size_t`/`uint64_t` accumulators. -/
def w64 : Nat := 18446744073709551616

/-- 32-bit left rotation (operands are < 2^32). -/
def rotl32 (s x : Nat) : Nat :=
  (((x <<< s) % w32) ||| (x >>> (32 - s)))

/-- Bitwise complement within 32 bits. -/
def bnot32 (x : Nat) : Nat := x ^^^ 4294967295

/-- Big-endian bytes of `n`, `k` bytes wide. -/
def beBytes : Nat → Nat → List Nat
  | 0, _ => []
  | k + 1, n => beBytes k (n / 256) ++ [n % 256]

/-- Group a byte list into big-endian 32-bit words (trailing partial group dropped;
inputs are always multiples of 4 bytes here). -/
def bytesToWords : List Nat → List Nat
  | a :: b :: c :: d :: rest => (a * 16777216 + b * 65536 + c * 256 + d) :: bytesToWords rest
  | _ => []

/-- SHA-1 message padding: append 0x80, zero bytes to 56 mod 64, then the
bit length as 8 big-endian bytes. -/
def sha1Pad (msg : List Nat) : List Nat :=
  let l := msg.length
  let k := (119 - l % 64) % 64
  msg ++ [128] ++ List.replicate k 0 ++ beBytes 8 ((l * 8) % w64)

/-- Extend the 16 schedule words by `fuel` further words (w[i-3]^w[i-8]^w[i-14]^w[i-16] rotated). -/
def sha1Schedule (ws : List Nat) : Nat → List Nat
  | 0 => ws
  | f + 1 =>
    let n := ws.length
    let w := rotl32 1 ((ws.getD (n - 3) 0) ^^^ (ws.getD (n - 8) 0) ^^^
                      (ws.getD (n - 14) 0) ^^^ (ws.getD (n - 16) 0))
    sha1Schedule (ws ++ [w]) f

/-- One SHA-1 round: state (a,b,c,d,e), round index i, schedule word list w. -/
def sha1Round (w : List Nat) (st : Nat × Nat × Nat × Nat × Nat) (i : Nat) :
    Nat × Nat × Nat × Nat × Nat :=
  let (a, b, c, d, e) := st
  let f :=
    if i < 20 then (b &&& c) ||| ((bnot32 b) &&& d)
    else if i < 40 then b ^^^ c ^^^ d
    else if i < 60 then (b &&& c) ||| (b &&& d) ||| (c &&& d)
    else b ^^^ c ^^^ d
  let k :=
    if i < 20 then 1518500249
    else if i < 40 then 1859775393
    else if i < 60 then 2400959708
    else 3395469782
  let temp := (rotl32 5 a + f + e + k + w.getD i 0) % w32
  (temp, a, rotl32 30 b, c, d)

/-- Compress a single 64-byte block (given as 16 words) into the running state. -/
def sha1Block (h : Nat × Nat × Nat × Nat × Nat) (ws16 : List Nat) :
    Nat × Nat × Nat × Nat × Nat :=
  let w := sha1Schedule ws16 64
  let (a, b, c, d, e) := (List.range 80).foldl (sha1Round w) h
  ((h.1 + a) % w32, (h.2.1 + b) % w32, (h.2.2.1 + c) % w32,
   (h.2.2.2.1 + d) % w32, (h.2.2.2.2 + e) % w32)

/-- Split a byte list into 64-byte chunks (fuel-driven for kernel reduction). -/
def chunks64Go : Nat → List Nat → List (List Nat)
  | 0, _ => []
  | _, [] => []
  | f + 1, bs => bs.take 64 :: chunks64Go f (bs.drop 64)

def chunks64 (bs : List Nat) : List (List Nat) := chunks64Go (bs.length + 1) bs

/-- SHA-1 of a byte list, as the 20 digest bytes. -/
def sha1Bytes (msg : List Nat) : List Nat :=
  let blocks := (chunks64 (sha1Pad msg)).map bytesToWords
  let (a, b, c, d, e) :=
    blocks.foldl sha1Block (1732584193, 4023233417, 2562383102, 271733878, 3285377520)
  beBytes 4 a ++ beBytes 4 b ++ beBytes 4 c ++ beBytes 4 d ++ beBytes 4 e

/-- Lowercase hex digit byte (ASCII) of a value < 16. -/
def hexDigit (n : Nat) : Nat := if n < 10 then 48 + n else 87 + n

/-- Two lowercase hex characters per byte, as in the `std::setw(2)` loop of
`computeSHA1`. -/
def bytesToHex : List Nat → List Nat
  | [] => []
  | b :: bs => hexDigit (b / 16) :: hexDigit (b % 16) :: bytesToHex bs

/-- `computeSHA1` (main.cpp:97): SHA-1 of the data, rendered as 40 lowercase
hex characters. -/
def computeSHA1 (data : List Nat) : List Nat := bytesToHex (sha1Bytes data)

/-- Decimal digit bytes of `n` (ASCII), as produced by `std::to_string`;
fuel-driven so the kernel can reduce it. -/
def decGo : Nat → Nat → List Nat
  | 0, _ => []
  | f + 1, n => if n < 10 then [48 + n] else decGo f (n / 10) ++ [48 + n % 10]

def decBytes (n : Nat) : List Nat := decGo (n + 1) n

/-- The zlib codec the program links against, abstracted as a pair of pure
functions; `decompress` is partial because `decompressZlib` throws on
malformed streams. -/
structure Codec where
  compress : List Nat → List Nat
  decompress : List Nat → Option (List Nat)

/-- The zlib guarantee the program relies on: decompressing the bytes
produced by `compressZlib` recovers the original buffer. -/
def Codec.RoundTrip (c : Codec) : Prop :=
  ∀ d, c.decompress (c.compress d) = some d

/-- Trivial codec instance used to instantiate theorems at concrete inputs. -/
def idCodec : Codec := ⟨fun d => d, fun d => some d⟩

theorem idCodec_roundTrip : Codec.RoundTrip idCodec := fun _ => rfl

/-- Error outcomes of the store/packfile operations, one constructor per
distinct `throw std::runtime_error` site category in the source. -/
inductive GitError where
  | objectNotFound    -- "Object file not found"
  | codecError        -- "Failed to decompress zlib data"
  | corruptPackfile   -- "Invalid packfile: ..."
  deriving DecidableEq, Repr

/-- The on-disk object store: a map from file-path byte strings to the raw
(compressed) file contents. -/
def Store : Type := List Nat → Option (List Nat)

def emptyStore : Store := fun _ => none

/-- ".git/objects/" as bytes. -/
def objectsRoot : List Nat := [46,103,105,116,47,111,98,106,101,99,116,115,47]

/-- The two-level sharded path `.git/objects/XX/YYYY...` built identically by
`readGitObject` and `writeGitObject` (main.cpp:110/139). -/
def objPath (hash : List Nat) : List Nat :=
  objectsRoot ++ hash.take 2 ++ [47] ++ hash.drop 2

/-- "blob " as bytes. -/
def blobWord : List Nat := [98,108,111,98,32]

/-- The header+payload sequence `"blob <len>\0<content>"` assembled by
`writeGitObject` (main.cpp:129-130). -/
def blobObjectData (content : List Nat) : List Nat :=
  blobWord ++ decBytes content.length ++ [0] ++ content

/-- `writeGitObject` (main.cpp:127): frames the content as a blob object,
hashes the uncompressed framing, stores the compressed framing under the
digest's sharded path, and returns the hex digest. -/
def writeGitObject (codec : Codec) (store : Store) (content : List Nat) :
    Store × List Nat :=
  let objectData := blobObjectData content
  let hash := computeSHA1 objectData
  let compressedData := codec.compress objectData
  (fun k => if k = objPath hash then some compressedData else store k, hash)

/-- `readGitObject` (main.cpp:108): loads the file at the digest's sharded
path (absent file throws) and decompresses it (malformed stream throws);
the decompressed header+payload is returned unparsed. -/
def readGitObject (codec : Codec) (store : Store) (hash : List Nat) :
    Except GitError (List Nat) :=
  match store (objPath hash) with
  | none => .error .objectNotFound
  | some compressedData =>
    match codec.decompress compressedData with
    | none => .error .codecError
    | some d => .ok d

/-- Split a byte string at its first NUL, as `objectData.find('\0')` plus the
two `substr` calls of the cat-file path (main.cpp:635-642). -/
def splitAtNul : List Nat → Option (List Nat × List Nat)
  | [] => none
  | b :: bs =>
    if b = 0 then some ([], bs)
    else (splitAtNul bs).map (fun q => (b :: q.1, q.2))

/-! ### Commit objects (`writeCommitObject`, main.cpp:257) -/

/-- "tree " as bytes. -/
def treeWord : List Nat := [116,114,101,101,32]

/-- "parent " as bytes. -/
def parentWord : List Nat := [112,97,114,101,110,116,32]

/-- "author Test Author <test@example.com> " as bytes. -/
def authorWord : List Nat :=
  [97,117,116,104,111,114,32,84,101,115,116,32,65,117,116,104,111,114,32,60,
   116,101,115,116,64,101,120,97,109,112,108,101,46,99,111,109,62,32]

/-- "committer Test Author <test@example.com> " as bytes. -/
def committerWord : List Nat :=
  [99,111,109,109,105,116,116,101,114,32,84,101,115,116,32,65,117,116,104,111,
   114,32,60,116,101,115,116,64,101,120,97,109,112,108,101,46,99,111,109,62,32]

/-- " +0000" as bytes. -/
def utcOffsetWord : List Nat := [32,43,48,48,48,48]

/-- The author header line of a commit, for timestamp `now` (main.cpp:269). -/
def authorLine (now : Nat) : List Nat := authorWord ++ decBytes now ++ utcOffsetWord

/-- The committer header line of a commit, for timestamp `now` (main.cpp:270). -/
def committerLine (now : Nat) : List Nat := committerWord ++ decBytes now ++ utcOffsetWord

/-- The commit payload built by `writeCommitObject` (main.cpp:262-276); the
wall-clock reading `std::time(nullptr)` is an explicit parameter `now`. -/
def commitContent (treeHash parentHash message : List Nat) (now : Nat) : List Nat :=
  treeWord ++ treeHash ++ [10] ++
  (if parentHash = [] then [] else parentWord ++ parentHash ++ [10]) ++
  authorLine now ++ [10] ++
  committerLine now ++ [10] ++
  [10] ++
  message ++ [10]

/-- Split a byte string into newline-terminated segments (the last segment is
the part after the final newline; never returns `[]`). -/
def splitNl : List Nat → List (List Nat)
  | [] => [[]]
  | b :: bs =>
    if b = 10 then [] :: splitNl bs
    else
      match splitNl bs with
      | [] => [[b]]
      | l :: ls => (b :: l) :: ls

/-- Whether `p` is an initial segment of `l` (byte-wise). -/
def startsWith : List Nat → List Nat → Bool
  | [], _ => true
  | _ :: _, [] => false
  | a :: as, b :: bs => a == b && startsWith as bs

/-- The raw bytes following the first empty line of `bs` (the flag records
whether the scan is at the start of a line). -/
def afterBlankAux : Bool → List Nat → Option (List Nat)
  | _, [] => none
  | atStart, b :: rest =>
    if b = 10 then (if atStart then some rest else afterBlankAux true rest)
    else afterBlankAux false rest

def afterBlank (bs : List Nat) : Option (List Nat) := afterBlankAux true bs

/-! ### Tree entries and their ordering (`createTreeFromDirectory`, main.cpp:427) -/

structure TreeEntry where
  mode : List Nat
  name : List Nat
  hash : List Nat
  deriving DecidableEq, Repr

/-- Byte-wise lexicographic strict order, the semantics of
`std::string::operator<` (unsigned `char_traits<char>` comparison). -/
def lexLt : List Nat → List Nat → Bool
  | [], [] => false
  | [], _ :: _ => true
  | _ :: _, [] => false
  | a :: as, b :: bs => if a < b then true else if b < a then false else lexLt as bs

/-- The comparator passed to `std::sort` in `createTreeFromDirectory`
(main.cpp:461-464): it compares names alone; the mode is ignored. -/
def entryLt (a b : TreeEntry) : Bool := lexLt a.name b.name

/-- "40000", the directory mode pushed for subdirectories (main.cpp:456). -/
def dirMode : List Nat := [52,48,48,48,48]

/-- "100644", the regular-file mode pushed for files (main.cpp:451). -/
def fileMode : List Nat := [49,48,48,54,52,52]

/-- Modelled from the spec: the sort key §3 prescribes — a directory entry's
name is compared as if suffixed with the path separator '/'. This definition
follows the spec's words and exists only to be compared with the comparator
taken from the source. -/
def specEntryKey (e : TreeEntry) : List Nat :=
  if e.mode = dirMode then e.name ++ [47] else e.name

/-- Modelled from the spec: the ordering relation of §3 (byte-wise on the
separator-suffixed keys). -/
def specEntryLt (a b : TreeEntry) : Bool := lexLt (specEntryKey a) (specEntryKey b)

/-- Insert `x` after every element it is not strictly below. -/
def insertEntry (x : TreeEntry) : List TreeEntry → List TreeEntry
  | [] => [x]
  | y :: ys => if entryLt x y then x :: y :: ys else y :: insertEntry x ys

/-- The `std::sort(entries, cmp)` call of `createTreeFromDirectory`, modelled
as a stable comparison sort with the source's comparator. `std::sort` only
guarantees the result is sorted with respect to the comparator; the relative
order of comparator-equal elements is unspecified, and this model fixes it to
the traversal order. -/
def sortEntries (l : List TreeEntry) : List TreeEntry :=
  l.foldl (fun acc x => insertEntry x acc) []

/-! ### Packfile parsing -/

structure PackObject where
  hash : List Nat
  data : List Nat
  type : Nat
  size : Nat
  deriving DecidableEq, Repr

/-- "PACK" as bytes. -/
def packMagic : List Nat := [80,65,67,75]

/-- Byte of `data` at index `i`, the `data[i]` accesses of the parsers. -/
def byteAt (data : List Nat) (i : Nat) : Nat := data.getD i 0

/-- The loop body of `parseVarint` (main.cpp:306) over the remaining bytes:
returns the accumulated value and the number of bytes consumed. The C++
accumulator is a `uint64_t`, hence the wrap at 2^64. -/
def varintGo : List Nat → Nat → Nat → Nat × Nat
  | [], _, acc => (acc, 0)
  | b :: bs, shift, acc =>
    let acc2 := (acc ||| (((b &&& 127) <<< shift) % w64)) % w64
    if b &&& 128 = 0 then (acc2, 1)
    else
      let r := varintGo bs (shift + 7) acc2
      (r.1, r.2 + 1)

/-- `parseVarint` (main.cpp:306): reads a little-endian base-128 varint at
`offset`, returning the value and the updated offset. -/
def parseVarint (data : List Nat) (offset : Nat) : Nat × Nat :=
  let r := varintGo (data.drop offset) 0 0
  (r.1, offset + r.2)

/-- 40 ASCII zeros, the placeholder digest of main.cpp:360. -/
def placeholderHash : List Nat := List.replicate 40 48

/-- `parsePackfile` (main.cpp:324): validates only the length and the "PACK"
magic, then runs a loop body that reads one type/size header, pushes a
placeholder object, and unconditionally breaks. -/
def parsePackfile (packData : List Nat) : Except GitError (List PackObject) :=
  if packData.length < 12 then .error .corruptPackfile
  else if packData.take 4 ≠ packMagic then .error .corruptPackfile
  else if 12 < packData.length then
    let r1 := parseVarint packData 12
    let ty := (r1.1 >>> 4) &&& 7
    let sz := r1.1 &&& 15
    let r2 := if sz = 15 then parseVarint packData r1.2 else (sz, r1.2)
    let r3 := if ty = 7 then parseVarint packData r2.2 else (ty, r2.2)
    .ok [⟨placeholderHash, [], r3.1, r2.1⟩]
  else .ok []

/-- `extractPackfileFromResponse` (part_001:324): index of the first "PACK"
occurrence, `std::string::find` semantics. -/
def findPackIdx : List Nat → Option Nat
  | [] => none
  | b :: bs =>
    if (b :: bs).take 4 = packMagic then some 0
    else (findPackIdx bs).map (· + 1)

def extractPackfileFromResponse (resp : List Nat) : Option (List Nat) :=
  (findPackIdx resp).map (resp.drop ·)

/-- The inner size-extension loop of part_001:367-373: while the previous
byte had its continuation bit set, read another byte and OR 7 more bits into
the `size_t` accumulator at the running shift. Fuel bounds the reads; callers
pass the buffer length, which the `offset` guard can never exceed. -/
def sizeExt (pk : List Nat) : Nat → Nat → Nat → Nat → Nat → Nat × Nat
  | 0, _, offset, _, size => (size, offset)
  | f + 1, c, offset, shift, size =>
    if c &&& 128 ≠ 0 then
      if pk.length ≤ offset then (size, offset)
      else
        let c2 := byteAt pk offset
        let size2 := (size ||| (((c2 &&& 127) <<< shift) % w64)) % w64
        sizeExt pk f c2 (offset + 1) (shift + 7) size2
    else (size, offset)

/-- The `switch (type)` of part_001:394-400 mapped to header keywords:
"commit", "tree", "blob", "tag", otherwise "unknown". -/
def typeWord (ty : Nat) : List Nat :=
  if ty = 1 then [99,111,109,109,105,116]
  else if ty = 2 then [116,114,101,101]
  else if ty = 3 then [98,108,111,98]
  else if ty = 4 then [116,97,103]
  else [117,110,107,110,111,119,110]

/-- The object loop of part_001:360-417. Each iteration reads the one-byte
type/size header plus extensions, then takes a window of
`min(remaining, size + 100)` bytes — an estimate, the source's comment calls
it "Rough estimate" — decompresses it, frames and hashes the result, and
advances the cursor by the estimated window, not by bytes consumed. A
decompression failure is caught and breaks the loop, keeping the objects
collected so far. -/
def packLoop (codec : Codec) (pk : List Nat) :
    Nat → Nat → List PackObject → List PackObject
  | 0, _, acc => acc
  | n + 1, offset, acc =>
    if offset < pk.length then
      let c := byteAt pk offset
      let offset1 := offset + 1
      let ty := (c >>> 4) &&& 7
      let sz0 := c &&& 15
      let r := sizeExt pk pk.length c offset1 4 sz0
      let sz := r.1
      let offset2 := r.2
      if pk.length ≤ offset2 then acc
      else
        let remaining := pk.length - offset2
        let est := min remaining (sz + 100)
        let window := (pk.drop offset2).take est
        match codec.decompress window with
        | none => acc
        | some objectData =>
          let fullObjectData :=
            typeWord ty ++ [32] ++ decBytes objectData.length ++ [0] ++ objectData
          let hash := computeSHA1 fullObjectData
          packLoop codec pk n (offset2 + est) (acc ++ [⟨hash, fullObjectData, ty, sz⟩])
    else acc

/-- `parsePackfile` of the earlier revision part_001:334: extracts the
packfile from the Smart HTTP response, validates length and magic, reads the
big-endian object count, and runs the estimated-window object loop. Every
failure is caught at part_001:419 and yields the objects collected so far
(possibly none) — the function never surfaces an error. -/
def parsePackfileFull (codec : Codec) (packData : List Nat) : List PackObject :=
  match extractPackfileFromResponse packData with
  | none => []
  | some pk =>
    if pk.length < 12 then []
    else if pk.take 4 ≠ packMagic then []
    else
      let numObjects :=
        (byteAt pk 8 <<< 24) ||| (byteAt pk 9 <<< 16) ||| (byteAt pk 10 <<< 8) ||| byteAt pk 11
      packLoop codec pk numObjects 12 []

/-! ### Concrete fixtures used to instantiate the theorems -/

/-- "hello\n" as bytes. -/
def helloBytes : List Nat := [104,101,108,108,111,10]

/-- "blob 6\0hello\n" as bytes, the framed form of `helloBytes`. -/
def helloFramed : List Nat := [98,108,111,98,32,54,0,104,101,108,108,111,10]

/-- The 39-character digest hex string printed in the specification:
"ce013625030ba8dba906f756967f9e9ca394464". -/
def specHex39 : List Nat :=
  [99,101,48,49,51,54,50,53,48,51,48,98,97,56,100,98,97,57,48,54,
   102,55,53,54,57,54,55,102,57,101,57,99,97,51,57,52,52,54,52]

/-- The 40-character SHA-1 hex of "blob 6\0hello\n":
"ce013625030ba8dba906f756967f9e9ca394464a". -/
def helloHex40 : List Nat :=
  [99,101,48,49,51,54,50,53,48,51,48,98,97,56,100,98,97,57,48,54,
   102,55,53,54,57,54,55,102,57,101,57,99,97,51,57,52,52,54,52,97]

/-- A codec whose decompression fails exactly on buffers starting with byte
255, used to exercise the parser's catch paths. -/
def failCodec : Codec :=
  ⟨fun d => d, fun d => if d.headD 0 = 255 then none else some d⟩

/-- A digest made of 40 'a' characters. -/
def hashA : List Nat := List.replicate 40 97

/-- A digest made of 40 'b' characters. -/
def hashB : List Nat := List.replicate 40 98

/-- "blob 5\0hi": a stored object whose declared length 5 differs from its
actual payload length 2. -/
def misdeclaredObj : List Nat := [98,108,111,98,32,53,0,104,105]

/-- A store holding (uncompressed, under `idCodec`) the mis-declared object
at `hashA`'s path and a headerless object (no NUL at all) at `hashB`'s path. -/
def corruptStore : Store := fun k =>
  if k = objPath hashA then some misdeclaredObj
  else if k = objPath hashB then some [1,2,3]
  else none

/-- A store holding an undecompressible file (first byte 255 fails
`failCodec`) at `hashA`'s path. -/
def badZlibStore : Store := fun k =>
  if k = objPath hashA then some [255] else none

/-- A 12-byte packfile with valid magic, version 3 (not 2), and object
count 0. -/
def packV3 : List Nat := packMagic ++ [0,0,0,3] ++ [0,0,0,0]

/-- A pack declaring 2 objects; the first object header declares a blob of
size 2, followed by 30 bytes in which the second object would live. -/
def packTwo : List Nat :=
  packMagic ++ [0,0,0,2] ++ [0,0,0,2] ++ [50] ++ List.replicate 30 97

/-- A pack declaring 2 objects where the first object's estimated window
ends exactly at the second object's header, and the second object's
compressed bytes start with 255 so `failCodec` rejects them. -/
def packBroken : List Nat :=
  packMagic ++ [0,0,0,2] ++ [0,0,0,2] ++ [50] ++ List.replicate 102 97 ++
  [50] ++ [255,1,2,3]

/-- A pack declaring 1 object whose single object has type 6 (offset-delta)
and whose body starts with the backward-offset varint 0 — a delta whose base
is the object itself, i.e. a self-referential delta chain. -/
def packCyclic : List Nat :=
  packMagic ++ [0,0,0,2] ++ [0,0,0,1] ++ [100] ++ [0,1,2,3]

/-- "unknown 4\0" followed by the cyclic object's window bytes — what the
earlier revision stages for the self-referential delta. -/
def unknownFramed : List Nat := [117,110,107,110,111,119,110,32,52,0,0,1,2,3]

/-- "foo" as bytes. -/
def fooName : List Nat := [102,111,111]

/-- A regular-file (blob) entry named "foo". -/
def fooBlobEntry : TreeEntry := ⟨fileMode, fooName, List.replicate 40 49⟩

/-- A directory (tree) entry named "foo". -/
def fooTreeEntry : TreeEntry := ⟨dirMode, fooName, List.replicate 40 50⟩

/-- "author " as bytes. -/
def authorTag : List Nat := [97,117,116,104,111,114,32]

/-- "committer " as bytes. -/
def committerTag : List Nat := [99,111,109,109,105,116,116,101,114,32]

/-- The C10 property of a commit payload: among the header lines (the lines
before the first blank line) there is exactly one author line and exactly one
committer line, both carrying the fixed identity and "+0000" offset for the
given timestamp, at most one parent line, and the bytes after the blank line
are the message with exactly one newline appended. -/
def CommitHeaderOk (t p m : List Nat) (now : Nat) : Prop :=
  let hdr := (splitNl (commitContent t p m now)).takeWhile (fun l => !l.isEmpty)
  hdr.countP (fun l => startsWith authorTag l) = 1 ∧
  hdr.countP (fun l => startsWith committerTag l) = 1 ∧
  hdr.countP (fun l => startsWith parentWord l) ≤ 1 ∧
  (∀ l ∈ hdr, startsWith authorTag l = true → l = authorLine now) ∧
  (∀ l ∈ hdr, startsWith committerTag l = true → l = committerLine now) ∧
  afterBlank (commitContent t p m now) = some (m ++ [10])

/-! ### Helper lemmas -/

theorem decGo_digits : ∀ f n b, b ∈ decGo f n → 48 ≤ b ∧ b ≤ 57 := by
  intro f
  induction f with
  | zero => intro n b h; simp [decGo] at h
  | succ f ih =>
    intro n b h
    simp only [decGo] at h
    split at h
    · simp only [List.mem_singleton] at h
      omega
    · rcases List.mem_append.1 h with h1 | h1
      · exact ih _ _ h1
      · simp only [List.mem_singleton] at h1
        omega

theorem decBytes_no_nl (n : Nat) : 10 ∉ decBytes n := by
  intro h
  have := decGo_digits _ _ _ h
  omega

theorem decBytes_no_nul (n : Nat) : 0 ∉ decBytes n := by
  intro h
  have := decGo_digits _ _ _ h
  omega

theorem splitAtNul_append (a r : List Nat) (ha : 0 ∉ a) :
    splitAtNul (a ++ 0 :: r) = some (a, r) := by
  induction a with
  | nil => simp [splitAtNul]
  | cons b bs ih =>
    have hb : b ≠ 0 := fun h => ha (h ▸ List.mem_cons_self b bs)
    have hbs : 0 ∉ bs := fun h => ha (List.mem_cons_of_mem b h)
    simp only [List.cons_append, List.append_eq, splitAtNul, if_neg hb, ih hbs,
      Option.map_some']

theorem splitNl_nl (r : List Nat) : splitNl (10 :: r) = [] :: splitNl r := by
  simp [splitNl]

theorem splitNl_line (a r : List Nat) (ha : 10 ∉ a) :
    splitNl (a ++ 10 :: r) = a :: splitNl r := by
  induction a with
  | nil => simp [splitNl]
  | cons b bs ih =>
    have hb : b ≠ 10 := fun h => ha (h ▸ List.mem_cons_self b bs)
    have hbs : 10 ∉ bs := fun h => ha (List.mem_cons_of_mem b h)
    simp only [List.cons_append, List.append_eq, splitNl, if_neg hb, ih hbs]

theorem startsWith_self : ∀ xs ys : List Nat, startsWith xs (xs ++ ys) = true := by
  intro xs ys
  induction xs with
  | nil => rfl
  | cons a as ih => simp [startsWith, ih]

theorem afterBlankAux_mid (a r : List Nat) (ha : 10 ∉ a) :
    afterBlankAux false (a ++ 10 :: r) = afterBlankAux true r := by
  induction a with
  | nil => simp [afterBlankAux]
  | cons b bs ih =>
    have hb : b ≠ 10 := fun h => ha (h ▸ List.mem_cons_self b bs)
    have hbs : 10 ∉ bs := fun h => ha (List.mem_cons_of_mem b h)
    simp only [List.cons_append, List.append_eq, afterBlankAux, if_neg hb, ih hbs]

theorem afterBlankAux_line (b : Nat) (bs r : List Nat) (ha : 10 ∉ b :: bs) :
    afterBlankAux true ((b :: bs) ++ 10 :: r) = afterBlankAux true r := by
  have hb : b ≠ 10 := fun h => ha (h ▸ List.mem_cons_self b bs)
  have hbs : 10 ∉ bs := fun h => ha (List.mem_cons_of_mem b h)
  simp only [List.cons_append, List.append_eq, afterBlankAux, if_neg hb,
    afterBlankAux_mid bs r hbs]

theorem afterBlankAux_nl (r : List Nat) : afterBlankAux true (10 :: r) = some r := by
  simp [afterBlankAux]

theorem lexLt_asymm : ∀ a b : List Nat, lexLt a b = true → lexLt b a = false := by
  intro a
  induction a with
  | nil =>
    intro b h
    cases b with
    | nil => simp [lexLt] at h
    | cons y ys => simp [lexLt]
  | cons x xs ih =>
    intro b h
    cases b with
    | nil => simp [lexLt] at h
    | cons y ys =>
      simp only [lexLt] at h ⊢
      by_cases h1 : x < y
      · rw [if_neg (by omega : ¬ y < x), if_pos h1]
      · by_cases h2 : y < x
        · rw [if_neg h1, if_pos h2] at h
          exact absurd h (by simp)
        · rw [if_neg h1, if_neg h2] at h
          rw [if_neg h2, if_neg h1]
          exact ih ys h

theorem lexLt_trans : ∀ a b c : List Nat,
    lexLt a b = true → lexLt b c = true → lexLt a c = true := by
  intro a
  induction a with
  | nil =>
    intro b c hab hbc
    cases b with
    | nil => simp [lexLt] at hab
    | cons y ys =>
      cases c with
      | nil => simp [lexLt] at hbc
      | cons z zs => simp [lexLt]
  | cons x xs ih =>
    intro b c hab hbc
    cases b with
    | nil => simp [lexLt] at hab
    | cons y ys =>
      cases c with
      | nil => simp [lexLt] at hbc
      | cons z zs =>
        simp only [lexLt] at hab hbc ⊢
        by_cases h1 : x < y
        · by_cases h2 : y < z
          · rw [if_pos (Nat.lt_trans h1 h2)]
          · by_cases h3 : z < y
            · rw [if_neg h2, if_pos h3] at hbc
              exact absurd hbc (by simp)
            · have hyz : y = z := by omega
              rw [if_pos (hyz ▸ h1)]
        · by_cases h1' : y < x
          · rw [if_neg h1, if_pos h1'] at hab
            exact absurd hab (by simp)
          · have hxy : x = y := by omega
            rw [if_neg h1, if_neg h1'] at hab
            by_cases h2 : y < z
            · rw [if_pos (hxy ▸ h2)]
            · by_cases h3 : z < y
              · rw [if_neg h2, if_pos h3] at hbc
                exact absurd hbc (by simp)
              · have hyz : y = z := by omega
                rw [if_neg h2, if_neg h3] at hbc
                rw [if_neg (by omega : ¬ x < z), if_neg (by omega : ¬ z < x)]
                exact ih ys zs hab hbc

theorem mem_insertEntry {z x : TreeEntry} :
    ∀ {ys : List TreeEntry}, z ∈ insertEntry x ys → z = x ∨ z ∈ ys := by
  intro ys
  induction ys with
  | nil =>
    intro h
    simp only [insertEntry, List.mem_singleton] at h
    exact Or.inl h
  | cons y ys ih =>
    intro h
    simp only [insertEntry] at h
    split at h
    · simp only [List.mem_cons] at h
      rcases h with h | h | h
      · exact Or.inl h
      · exact Or.inr (h ▸ List.mem_cons_self y ys)
      · exact Or.inr (List.mem_cons_of_mem y h)
    · simp only [List.mem_cons] at h
      rcases h with h | h
      · exact Or.inr (h ▸ List.mem_cons_self y ys)
      · rcases ih h with h' | h'
        · exact Or.inl h'
        · exact Or.inr (List.mem_cons_of_mem y h')

theorem pairwise_insertEntry (x : TreeEntry) :
    ∀ acc : List TreeEntry,
      acc.Pairwise (fun a b => entryLt b a = false) →
      (insertEntry x acc).Pairwise (fun a b => entryLt b a = false) := by
  intro acc
  induction acc with
  | nil =>
    intro _
    simp [insertEntry]
  | cons y ys ih =>
    intro h
    rw [List.pairwise_cons] at h
    obtain ⟨hy, hys⟩ := h
    simp only [insertEntry]
    split
    case isTrue hxy =>
      rw [List.pairwise_cons]
      refine ⟨?_, by rw [List.pairwise_cons]; exact ⟨hy, hys⟩⟩
      intro z hz
      rcases List.mem_cons.1 hz with rfl | hz'
      · exact lexLt_asymm _ _ hxy
      · cases hzx : entryLt z x with
        | false => rfl
        | true =>
          have htr := lexLt_trans z.name x.name y.name hzx hxy
          have hzy := hy z hz'
          unfold entryLt at hzy
          rw [hzy] at htr
          exact absurd htr (by simp)
    case isFalse hxy =>
      rw [List.pairwise_cons]
      refine ⟨?_, ih hys⟩
      intro z hz
      rcases mem_insertEntry hz with rfl | hz'
      · exact Bool.not_eq_true _ ▸ (by simpa using hxy)
      · exact hy z hz'

theorem writeGitObject_lookup (codec : Codec) (store : Store) (content : List Nat) :
    (writeGitObject codec store content).1
        (objPath (writeGitObject codec store content).2) =
      some (codec.compress (blobObjectData content)) := by
  simp [writeGitObject]

theorem writeGitObject_hash (codec : Codec) (store : Store) (content : List Nat) :
    (writeGitObject codec store content).2 = computeSHA1 (blobObjectData content) :=
  rfl

theorem readGitObject_ok (codec : Codec) (store : Store) (hash bs d : List Nat)
    (h1 : store (objPath hash) = some bs) (h2 : codec.decompress bs = some d) :
    readGitObject codec store hash = .ok d := by
  simp_all [readGitObject]

theorem afterBlankAux_line' (a r : List Nat) (ha : 10 ∉ a) (hne : a ≠ []) :
    afterBlankAux true (a ++ 10 :: r) = afterBlankAux true r := by
  cases a with
  | nil => exact absurd rfl hne
  | cons b bs => exact afterBlankAux_line b bs r ha

theorem commitContent_shape (t p m : List Nat) (now : Nat) :
    commitContent t p m now =
      if p = [] then
        (treeWord ++ t) ++ 10 :: (authorLine now ++ 10 ::
          (committerLine now ++ 10 :: 10 :: (m ++ [10])))
      else
        (treeWord ++ t) ++ 10 :: ((parentWord ++ p) ++ 10 ::
          (authorLine now ++ 10 :: (committerLine now ++ 10 :: 10 :: (m ++ [10])))) := by
  unfold commitContent
  by_cases hp0 : p = [] <;> simp [hp0, List.append_assoc]

/-! ### Claim theorems -/

/-- C1 counterexample: writing the blob "hello\n" returns the full 40-character
digest hex "ce013625030ba8dba906f756967f9e9ca394464a", which is not the
39-character string "ce013625030ba8dba906f756967f9e9ca394464" printed in the
specification, so the claim's stated digest is wrong. -/
theorem c1_counterexample :
    (writeGitObject idCodec emptyStore helloBytes).2 = helloHex40 ∧
    helloHex40 ≠ specHex39 := by
  constructor
  · decide
  · decide

/-- C1 amended: for any codec satisfying the zlib round-trip guarantee,
writing a blob with payload "hello\n" stores bytes that decompress to exactly
"blob 6\0hello\n" and returns the 40-character digest hex
"ce013625030ba8dba906f756967f9e9ca394464a". -/
theorem c1_amended (codec : Codec) (h : codec.RoundTrip) :
    (writeGitObject codec emptyStore helloBytes).2 = helloHex40 ∧
    ((writeGitObject codec emptyStore helloBytes).1
        (objPath (writeGitObject codec emptyStore helloBytes).2)).bind codec.decompress
      = some helloFramed := by
  constructor
  · rw [writeGitObject_hash]
    decide
  · rw [writeGitObject_lookup, Option.some_bind, h]
    decide

/-- Witness for C1 amended at the identity codec. -/
theorem c1_amended_witness :
    Codec.RoundTrip idCodec ∧
    ((writeGitObject idCodec emptyStore helloBytes).2 = helloHex40 ∧
     ((writeGitObject idCodec emptyStore helloBytes).1
         (objPath (writeGitObject idCodec emptyStore helloBytes).2)).bind idCodec.decompress
       = some helloFramed) :=
  ⟨idCodec_roundTrip, c1_amended idCodec idCodec_roundTrip⟩

/-- C2: for every payload P and every codec satisfying the zlib round-trip
guarantee, reading back the object just written for P returns exactly the
header-plus-payload sequence "blob <len>\0<P>", and splitting that sequence at
its first NUL recovers the blob kind header and the exact payload P. -/
theorem c2_roundtrip (codec : Codec) (h : codec.RoundTrip) (store : Store)
    (P : List Nat) :
    readGitObject codec (writeGitObject codec store P).1
        (writeGitObject codec store P).2 = .ok (blobObjectData P) ∧
    splitAtNul (blobObjectData P) = some (blobWord ++ decBytes P.length, P) := by
  constructor
  · exact readGitObject_ok codec _ _ _ _ (writeGitObject_lookup codec store P)
      (h (blobObjectData P))
  · have h0 : (0 : Nat) ∉ blobWord ++ decBytes P.length := by
      intro hm
      rcases List.mem_append.1 hm with hm | hm
      · simp [blobWord] at hm
      · exact decBytes_no_nul _ hm
    have hshape : blobObjectData P = (blobWord ++ decBytes P.length) ++ 0 :: P := by
      simp [blobObjectData]
    rw [hshape, splitAtNul_append _ _ h0]

/-- Witness for C2 at the identity codec, the empty store and payload "hi". -/
theorem c2_roundtrip_witness :
    Codec.RoundTrip idCodec ∧
    (readGitObject idCodec (writeGitObject idCodec emptyStore [104,105]).1
         (writeGitObject idCodec emptyStore [104,105]).2
       = .ok (blobObjectData [104,105]) ∧
     splitAtNul (blobObjectData [104,105])
       = some (blobWord ++ decBytes ([104,105] : List Nat).length, [104,105])) :=
  ⟨idCodec_roundTrip, c2_roundtrip idCodec idCodec_roundTrip emptyStore [104,105]⟩

/-- C9: writing the same content twice returns the same digest and leaves the
store in exactly the same state as a single write — `writeGitObject`
recompresses deterministically and rewrites the same bytes to the same path. -/
theorem c9_idempotent (codec : Codec) (store : Store) (content : List Nat) :
    writeGitObject codec (writeGitObject codec store content).1 content =
      writeGitObject codec store content := by
  simp only [writeGitObject]
  refine Prod.ext ?_ rfl
  funext k
  by_cases hk : k = objPath (computeSHA1 (blobObjectData content)) <;> simp [hk]

/-- C8 counterexample: `readGitObject` returns a stored object whose declared
length (5) differs from its actual payload length (2) instead of rejecting it,
and likewise returns a stored object with no NUL-terminated header at all. -/
theorem c8_counterexample :
    readGitObject idCodec corruptStore hashA = .ok misdeclaredObj ∧
    readGitObject idCodec corruptStore hashB = .ok [1,2,3] :=
  ⟨rfl, rfl⟩

/-- C8 amended: `readGitObject` fails with the not-found error exactly when no
file exists at the digest's sharded path and with the codec error exactly when
decompression fails; any bytes that decompress are returned as-is — the header
and its declared length are never validated. -/
theorem c8_amended (codec : Codec) (store : Store) (hash : List Nat) :
    (store (objPath hash) = none →
      readGitObject codec store hash = .error .objectNotFound) ∧
    (∀ bs, store (objPath hash) = some bs → codec.decompress bs = none →
      readGitObject codec store hash = .error .codecError) ∧
    (∀ bs d, store (objPath hash) = some bs → codec.decompress bs = some d →
      readGitObject codec store hash = .ok d) := by
  refine ⟨?_, ?_, ?_⟩ <;> intros <;> simp_all [readGitObject]

/-- Witness for C8 amended: all three branches at concrete stores. -/
theorem c8_amended_witness :
    readGitObject idCodec emptyStore hashA = .error .objectNotFound ∧
    readGitObject failCodec badZlibStore hashA = .error .codecError ∧
    readGitObject idCodec corruptStore hashB = .ok [1,2,3] :=
  ⟨(c8_amended idCodec emptyStore hashA).1 rfl,
   (c8_amended failCodec badZlibStore hashA).2.1 [255] rfl rfl,
   (c8_amended idCodec corruptStore hashB).2.2 [1,2,3] [1,2,3] rfl rfl⟩

/-- C4 counterexample: a 12-byte buffer with the correct "PACK" magic but
version 3 is accepted (`parsePackfile` returns ok), although the claim says a
version other than 2 must be rejected. -/
theorem c4_counterexample :
    packV3.length = 12 ∧ packV3.take 4 = packMagic ∧ byteAt packV3 7 = 3 ∧
    parsePackfile packV3 = .ok [] :=
  ⟨rfl, rfl, rfl, rfl⟩

/-- C4 amended: `parsePackfile` rejects a buffer exactly when it is shorter
than 12 bytes or does not begin with the 4-byte "PACK" magic; the version
field is never checked. -/
theorem c4_amended (d : List Nat) :
    parsePackfile d = .error .corruptPackfile ↔
      (d.length < 12 ∨ d.take 4 ≠ packMagic) := by
  unfold parsePackfile
  by_cases h1 : d.length < 12
  · simp [h1]
  · by_cases h2 : d.take 4 ≠ packMagic
    · simp [h1, h2]
    · rw [if_neg h1, if_neg h2]
      constructor
      · intro hcontra
        split at hcontra <;> simp at hcontra
      · intro hor
        rcases hor with h | h
        · exact absurd h h1
        · exact absurd h h2

/-- C3 counterexample: the source comparator orders neither of two entries
both named "foo" before the other (it ignores the mode entirely), while the
specification's separator-suffixed key orders the blob strictly before the
tree; consequently, under the traversal order [tree, blob] the sorted output
keeps the tree entry first — the tree entry does not sort after the blob. -/
theorem c3_counterexample :
    entryLt fooBlobEntry fooTreeEntry = false ∧
    entryLt fooTreeEntry fooBlobEntry = false ∧
    specEntryLt fooBlobEntry fooTreeEntry = true ∧
    sortEntries [fooTreeEntry, fooBlobEntry] = [fooTreeEntry, fooBlobEntry] := by
  refine ⟨?_, ?_, ?_, ?_⟩ <;> decide

/-- C3 amended: the sorted entry list is ordered by plain byte-wise comparison
of `name` alone, with no separator suffix for directory entries: no later
entry's name is strictly below an earlier entry's name. -/
theorem c3_amended (l : List TreeEntry) :
    (sortEntries l).Pairwise (fun a b => entryLt b a = false) := by
  have key : ∀ (xs acc : List TreeEntry),
      acc.Pairwise (fun a b => entryLt b a = false) →
      (xs.foldl (fun acc x => insertEntry x acc) acc).Pairwise
        (fun a b => entryLt b a = false) := by
    intro xs
    induction xs with
    | nil => intro acc h; simpa using h
    | cons x xs ih =>
      intro acc h
      exact ih _ (pairwise_insertEntry x acc h)
  exact key l [] (by simp)

/-- C5: the earlier revision's parser advances the cursor by the estimated
window `min(remaining, size + 100)` instead of a consumed-byte count: for a
pack declaring two objects whose first object declares size 2, the whole
30-byte remainder is swallowed into the first object's window (data length
8 + 30 = 38) and only one object is produced. -/
theorem c5_code_behavior :
    byteAt packTwo 11 = 2 ∧
    (parsePackfileFull idCodec packTwo).map (fun o => (o.type, o.size, o.data.length))
      = [(3, 2, 38)] :=
  ⟨rfl, by decide⟩

/-- C6: ingestion is not all-or-nothing in the earlier revision: with a pack
declaring two objects where the second object's bytes fail to decompress, the
parser catches the failure and returns the first object anyway — partially
decoded objects survive, and no trailing checksum is ever examined. -/
theorem c6_code_behavior :
    byteAt packBroken 11 = 2 ∧
    (parsePackfileFull failCodec packBroken).map (fun o => (o.type, o.size, o.data.length))
      = [(3, 2, 111)] :=
  ⟨rfl, by decide⟩

/-- C7: a pack whose single object is an offset-delta (type 6) whose
backward-offset varint is 0 — a self-referential delta — is not rejected:
the parser stages it as an "unknown"-framed object and succeeds; no cycle
detection exists and no UnsupportedDeltaCycle failure is possible. -/
theorem c7_code_behavior :
    (parsePackfileFull idCodec packCyclic).map (fun o => (o.type, o.size, o.data))
      = [(6, 4, unknownFramed)] := by
  decide

/-- C10: for every tree digest, parent digest (newline-free, as hex digests
are) and message, the commit payload contains exactly one author and one
committer header line, both with the fixed identity and "+0000" offset, at
most one parent header line, and the bytes after the blank line are the
message with exactly one newline appended. -/
theorem c10_commit_format (t p m : List Nat) (now : Nat)
    (ht : (10 : Nat) ∉ t) (hp : (10 : Nat) ∉ p) :
    CommitHeaderOk t p m now := by
  have hTree : (10 : Nat) ∉ treeWord ++ t := by
    intro hm
    rcases List.mem_append.1 hm with hm | hm
    · simp [treeWord] at hm
    · exact ht hm
  have hAuthor : (10 : Nat) ∉ authorLine now := by
    intro hm
    unfold authorLine at hm
    rcases List.mem_append.1 hm with hm | hm
    · rcases List.mem_append.1 hm with hm | hm
      · simp [authorWord] at hm
      · exact decBytes_no_nl now hm
    · simp [utcOffsetWord] at hm
  have hComm : (10 : Nat) ∉ committerLine now := by
    intro hm
    unfold committerLine at hm
    rcases List.mem_append.1 hm with hm | hm
    · rcases List.mem_append.1 hm with hm | hm
      · simp [committerWord] at hm
      · exact decBytes_no_nl now hm
    · simp [utcOffsetWord] at hm
  by_cases hp0 : p = []
  · have hsplit : splitNl (commitContent t p m now) =
        (treeWord ++ t) :: authorLine now :: committerLine now :: [] ::
          splitNl (m ++ [10]) := by
      rw [commitContent_shape, if_pos hp0, splitNl_line _ _ hTree,
        splitNl_line _ _ hAuthor, splitNl_line _ _ hComm, splitNl_nl]
    have hhdr : (splitNl (commitContent t p m now)).takeWhile (fun l => !l.isEmpty) =
        [treeWord ++ t, authorLine now, committerLine now] := by
      rw [hsplit]
      simp [List.takeWhile_cons, treeWord, authorLine, authorWord,
        committerLine, committerWord]
    simp only [CommitHeaderOk]
    rw [hhdr]
    refine ⟨?_, ?_, ?_, ?_, ?_, ?_⟩
    · simp [List.countP_cons, startsWith, authorTag, treeWord, authorLine,
        authorWord, committerLine, committerWord]
    · simp [List.countP_cons, startsWith, committerTag, treeWord, authorLine,
        authorWord, committerLine, committerWord]
    · simp [List.countP_cons, startsWith, parentWord, treeWord, authorLine,
        authorWord, committerLine, committerWord]
    · intro l hl hsw
      simp only [List.mem_cons, List.mem_nil_iff, or_false] at hl
      rcases hl with rfl | rfl | rfl
      · simp [startsWith, authorTag, treeWord] at hsw
      · rfl
      · simp [startsWith, authorTag, committerLine, committerWord] at hsw
    · intro l hl hsw
      simp only [List.mem_cons, List.mem_nil_iff, or_false] at hl
      rcases hl with rfl | rfl | rfl
      · simp [startsWith, committerTag, treeWord] at hsw
      · simp [startsWith, committerTag, authorLine, authorWord] at hsw
      · rfl
    · unfold afterBlank
      rw [commitContent_shape, if_pos hp0,
        afterBlankAux_line' _ _ hTree (by simp [treeWord]),
        afterBlankAux_line' _ _ hAuthor (by simp [authorLine, authorWord]),
        afterBlankAux_line' _ _ hComm (by simp [committerLine, committerWord]),
        afterBlankAux_nl]
  · have hParent : (10 : Nat) ∉ parentWord ++ p := by
      intro hm
      rcases List.mem_append.1 hm with hm | hm
      · simp [parentWord] at hm
      · exact hp hm
    have hsplit : splitNl (commitContent t p m now) =
        (treeWord ++ t) :: (parentWord ++ p) :: authorLine now ::
          committerLine now :: [] :: splitNl (m ++ [10]) := by
      rw [commitContent_shape, if_neg hp0, splitNl_line _ _ hTree,
        splitNl_line _ _ hParent, splitNl_line _ _ hAuthor,
        splitNl_line _ _ hComm, splitNl_nl]
    have hhdr : (splitNl (commitContent t p m now)).takeWhile (fun l => !l.isEmpty) =
        [treeWord ++ t, parentWord ++ p, authorLine now, committerLine now] := by
      rw [hsplit]
      simp [List.takeWhile_cons, treeWord, parentWord, authorLine, authorWord,
        committerLine, committerWord]
    simp only [CommitHeaderOk]
    rw [hhdr]
    refine ⟨?_, ?_, ?_, ?_, ?_, ?_⟩
    · simp [List.countP_cons, startsWith, authorTag, treeWord, parentWord,
        authorLine, authorWord, committerLine, committerWord]
    · simp [List.countP_cons, startsWith, committerTag, treeWord, parentWord,
        authorLine, authorWord, committerLine, committerWord]
    · simp [List.countP_cons, startsWith, parentWord, treeWord,
        authorLine, authorWord, committerLine, committerWord]
    · intro l hl hsw
      simp only [List.mem_cons, List.mem_nil_iff, or_false] at hl
      rcases hl with rfl | rfl | rfl | rfl
      · simp [startsWith, authorTag, treeWord] at hsw
      · simp [startsWith, authorTag, parentWord] at hsw
      · rfl
      · simp [startsWith, authorTag, committerLine, committerWord] at hsw
    · intro l hl hsw
      simp only [List.mem_cons, List.mem_nil_iff, or_false] at hl
      rcases hl with rfl | rfl | rfl | rfl
      · simp [startsWith, committerTag, treeWord] at hsw
      · simp [startsWith, committerTag, parentWord] at hsw
      · simp [startsWith, committerTag, authorLine, authorWord] at hsw
      · rfl
    · unfold afterBlank
      rw [commitContent_shape, if_neg hp0,
        afterBlankAux_line' _ _ hTree (by simp [treeWord]),
        afterBlankAux_line' _ _ hParent (by simp [parentWord]),
        afterBlankAux_line' _ _ hAuthor (by simp [authorLine, authorWord]),
        afterBlankAux_line' _ _ hComm (by simp [committerLine, committerWord]),
        afterBlankAux_nl]

/-- Witness for C10 at concrete newline-free digests, a concrete message and
timestamp. -/
theorem c10_commit_format_witness :
    (10 : Nat) ∉ hashA ∧ (10 : Nat) ∉ hashB ∧
    CommitHeaderOk hashA hashB [104,105] 1700000000 :=
  ⟨by decide, by decide,
   c10_commit_format hashA hashB [104,105] 1700000000 (by decide) (by decide)⟩

end MyGit
